import Mathlib

/-!
Verification of the specprod-db tabular ingestion engine.

This file gives a shallow embedding, in Lean 4, of the algorithmic core of
the `specprodDB` Python package (py/specprodDB/util.py and
py/specprodDB/load.py), and proves or refutes a list of claims about it:

* the dimension codec and the composite identifier encoders
  (`util.py`: `_surveyid`, `_spgrpid`, `targetphotid`, `decode_targetphotid`,
  `ztileid`);
* the row validation / finitization step and the chunked loader of
  `load.py:load_file`;
* the incremental deduplication filter `load.py:_deduplicate_targetid`;
* the post-load bitmask reconciliation pass `load.py:zpix_target`.

Python integers are embedded as `Nat` (all quantities involved are
non-negative); Python dictionaries that raise `KeyError` are embedded as
`Option`-valued lookups; numpy float cells are embedded symbolically by the
inductive type `PyFloat`, which is enough to express the `np.isnan` /
`np.isfinite` dispatch that the validation step performs.
-/

/-! ### Dimension codec (util.py, lines 20-26)

`_surveyid = {'cmx': 1, 'special': 2, 'sv1': 3, 'sv2': 4, 'sv3': 5, 'main': 6}`
and its inverse `_decode_surveyid`; `_spgrpid` for the redshift groupings.
A missing dictionary key raises `KeyError` in Python; here the lookup
returns `none`. -/

def _surveyid : String → Option Nat
  | "cmx" => some 1
  | "special" => some 2
  | "sv1" => some 3
  | "sv2" => some 4
  | "sv3" => some 5
  | "main" => some 6
  | _ => none

def _decode_surveyid : Nat → Option String
  | 1 => some "cmx"
  | 2 => some "special"
  | 3 => some "sv1"
  | 4 => some "sv2"
  | 5 => some "sv3"
  | 6 => some "main"
  | _ => none

def _spgrpid : String → Option Nat
  | "1x_depth" => some 1
  | "4x_depth" => some 2
  | "cumulative" => some 3
  | "lowspeed" => some 4
  | "perexp" => some 5
  | "pernight" => some 6
  | "healpix" => some 7
  | _ => none

/-! ### Composite identifier encoder (util.py, lines 132-215) -/

/-- `targetphotid(targetid, tileid, survey)` (util.py lines 132-150):
`(surveyid(survey) << 96) | (tileid << 64) | targetid`.  The survey lookup
raises `KeyError` for an unknown survey, embedded as `none`. -/
def targetphotid (targetid tileid : Nat) (survey : String) : Option Nat :=
  (_surveyid survey).map (fun s => (s <<< 96) ||| (tileid <<< 64) ||| targetid)

/-- `decode_targetphotid(targetphotid)` (util.py lines 153-170):
`targetid = id & (2**64 - 1); t = id >> 64; tileid = t & (2**32 - 1);
survey = decode_surveyid(t >> 32)`. -/
def decode_targetphotid (tp : Nat) : Nat × Nat × Option String :=
  let targetid := tp &&& (2 ^ 64 - 1)
  let t := tp >>> 64
  let tileid := t &&& (2 ^ 32 - 1)
  (targetid, tileid, _decode_surveyid (t >>> 32))

/-- `ztileid(targetid, spgrp, spgrpval, tileid)` (util.py lines 194-215):
`spgrpid = (_spgrpid[spgrp] << 27) | spgrpval` (commented in the source as an
"effective 32-bit integer"), then `(spgrpid << 96) | (tileid << 64) | targetid`.
There is no range check on `spgrpval`. -/
def ztileid (targetid : Nat) (spgrp : String) (spgrpval tileid : Nat) : Option Nat :=
  (_spgrpid spgrp).map (fun g =>
    let spgrpid := (g <<< 27) ||| spgrpval
    (spgrpid <<< 96) ||| (tileid <<< 64) ||| targetid)

/-! ### Bit-packing arithmetic -/

/-- Shifting distributes over bitwise or. -/
lemma shiftLeft_lor_distrib (a b n : Nat) :
    (a ||| b) <<< n = (a <<< n) ||| (b <<< n) := by
  apply Nat.eq_of_testBit_eq
  intro i
  simp only [Nat.testBit_shiftLeft, Nat.testBit_lor]
  by_cases h : n ≤ i <;> simp [h]

/-- Bitwise or of a shifted value with a small value is addition:
the two summands occupy disjoint bit ranges. -/
lemma shiftLeft_lor_eq_add (hi lo n : Nat) (h : lo < 2 ^ n) :
    (hi <<< n) ||| lo = hi * 2 ^ n + lo := by
  apply Nat.eq_of_testBit_eq
  intro i
  have hrw : hi * 2 ^ n + lo = 2 ^ n * hi + lo := by ring_nf
  rw [Nat.testBit_lor, Nat.testBit_shiftLeft, hrw,
    Nat.testBit_mul_pow_two_add hi h i]
  by_cases hc : i < n
  · have : ¬ n ≤ i := Nat.not_le_of_lt hc
    simp [hc, this]
  · have hle : n ≤ i := Nat.le_of_not_lt hc
    have hlo : lo.testBit i = false := by
      apply Nat.testBit_lt_two_pow
      exact lt_of_lt_of_le h (Nat.pow_le_pow_right (by norm_num) hle)
    simp [hc, hle, hlo]

/-- The three fields of a `(hi32 << 96) | (mid32 << 64) | lo64` packing
combine additively when the low fields are within their bit widths. -/
lemma pack3_eq (s t d : Nat) (ht : t < 2 ^ 32) (hd : d < 2 ^ 64) :
    (s <<< 96) ||| (t <<< 64) ||| d = (s * 2 ^ 32 + t) * 2 ^ 64 + d := by
  have h96 : s <<< 96 = (s <<< 32) <<< 64 := by
    rw [← Nat.shiftLeft_add]
  rw [h96, ← shiftLeft_lor_distrib]
  rw [shiftLeft_lor_eq_add _ _ _ hd]
  rw [shiftLeft_lor_eq_add _ _ _ ht]

/-- Decoding the packed value recovers the three fields. -/
lemma pack3_decode (s t d : Nat) (ht : t < 2 ^ 32) (hd : d < 2 ^ 64) :
    ((s <<< 96) ||| (t <<< 64) ||| d) &&& (2 ^ 64 - 1) = d ∧
    (((s <<< 96) ||| (t <<< 64) ||| d) >>> 64) &&& (2 ^ 32 - 1) = t ∧
    (((s <<< 96) ||| (t <<< 64) ||| d) >>> 64) >>> 32 = s := by
  rw [pack3_eq s t d ht hd]
  have h64 : (0:Nat) < 2 ^ 64 := by positivity
  have h32 : (0:Nat) < 2 ^ 32 := by positivity
  have hmod : ((s * 2 ^ 32 + t) * 2 ^ 64 + d) % 2 ^ 64 = d := by
    rw [mul_comm (s * 2 ^ 32 + t) (2 ^ 64), Nat.mul_add_mod, Nat.mod_eq_of_lt hd]
  have hdiv : ((s * 2 ^ 32 + t) * 2 ^ 64 + d) / 2 ^ 64 = s * 2 ^ 32 + t := by
    rw [mul_comm (s * 2 ^ 32 + t) (2 ^ 64), Nat.mul_add_div h64,
      Nat.div_eq_of_lt hd, Nat.add_zero]
  refine ⟨?_, ?_, ?_⟩
  · rw [Nat.and_pow_two_sub_one_eq_mod, hmod]
  · rw [Nat.shiftRight_eq_div_pow, hdiv, Nat.and_pow_two_sub_one_eq_mod,
      mul_comm s (2 ^ 32), Nat.mul_add_mod, Nat.mod_eq_of_lt ht]
  · have e1 : ((s * 2 ^ 32 + t) * 2 ^ 64 + d) >>> 64 = s * 2 ^ 32 + t := by
      rw [Nat.shiftRight_eq_div_pow]; exact hdiv
    rw [e1, Nat.shiftRight_eq_div_pow, mul_comm s (2 ^ 32),
      Nat.mul_add_div h32, Nat.div_eq_of_lt ht, Nat.add_zero]

/-- C1: for every survey in the closed enumeration, every `tileid < 2^32`
and every `targetid < 2^64`, `decode_targetphotid` inverts `targetphotid`. -/
theorem targetphotid_roundtrip (survey : String) (tileid targetid : Nat)
    (hs : survey ∈ ["cmx", "special", "sv1", "sv2", "sv3", "main"])
    (ht : tileid < 2 ^ 32) (hd : targetid < 2 ^ 64) :
    ∃ key, targetphotid targetid tileid survey = some key ∧
      decode_targetphotid key = (targetid, tileid, some survey) := by
  have main : ∀ s : Nat, _surveyid survey = some s → s < 2 ^ 32 →
      _decode_surveyid s = some survey →
      ∃ key, targetphotid targetid tileid survey = some key ∧
        decode_targetphotid key = (targetid, tileid, some survey) := by
    intro s hsid hslt hdec
    refine ⟨(s <<< 96) ||| (tileid <<< 64) ||| targetid, ?_, ?_⟩
    · simp [targetphotid, hsid]
    · obtain ⟨h1, h2, h3⟩ := pack3_decode s tileid targetid ht hd
      simp only [decode_targetphotid, h1, h2, h3, hdec]
  fin_cases hs
  · exact main 1 rfl (by norm_num) rfl
  · exact main 2 rfl (by norm_num) rfl
  · exact main 3 rfl (by norm_num) rfl
  · exact main 4 rfl (by norm_num) rfl
  · exact main 5 rfl (by norm_num) rfl
  · exact main 6 rfl (by norm_num) rfl

/-- Witness for `targetphotid_roundtrip` at survey "main", tileid 1234,
targetid 567. -/
theorem targetphotid_roundtrip_witness :
    ∃ key, targetphotid 567 1234 "main" = some key ∧
      decode_targetphotid key = (567, 1234, some "main") :=
  targetphotid_roundtrip "main" 1234 567 (by decide) (by norm_num) (by norm_num)

/-- C2: `ztileid` performs no range check on `spgrpval`.  For
`spgrpval = 2^28 ≥ 2^27` it silently returns a key, and that key collides
with the key of a different `(spgrp, spgrpval)` pair: the excess bits of
`spgrpval` are or-ed into the `spgrpid` field.  The claim (and the source's
own "effective 32-bit integer" comment together with the docstring's
`< 2^128` bound) requires an explicit error instead. -/
theorem ztileid_overflow_collides :
    ztileid 5 "1x_depth" (2 ^ 28) 7 = ztileid 5 "cumulative" 0 7 ∧
      ztileid 5 "1x_depth" (2 ^ 28) 7 ≠ none := by
  constructor
  · decide
  · decide

/-! ### Row validation / finitization (load.py, lines 1056-1082)

For every column of floating-point dtype, `load_file` computes
`bad = np.isnan(column)` and, when any cell is bad, assigns
`column[bad] = -9999.0`.  numpy float cells are embedded symbolically:
`np.isnan` is true exactly on NaN, `np.isfinite` exactly on finite values.
The sentinel `-9999.0` is exactly representable, embedded as
`PyFloat.finite (-9999)`. -/

inductive PyFloat where
  | finite (x : Int)
  | nan
  | posInf
  | negInf
deriving DecidableEq

/-- `np.isnan`. -/
def np_isnan : PyFloat → Bool
  | .nan => true
  | _ => false

/-- `np.isfinite` (used by the claim, not by `load_file` itself). -/
def np_isfinite : PyFloat → Bool
  | .finite _ => true
  | _ => false

/-- One named column of the table, with its numpy dtype kind. -/
structure Column where
  name : String
  kind : Char
  cells : List PyFloat
deriving DecidableEq

/-- The in-place update `column[bad] = -9999.0` guarded by
`if np.any(bad)` (load.py lines 1058-1081), for one column of
floating-point dtype. -/
def load_file_finitize_cells (cells : List PyFloat) : List PyFloat :=
  if cells.any np_isnan then
    cells.map (fun x => if np_isnan x then PyFloat.finite (-9999) else x)
  else
    cells

/-- The per-column dispatch `if data[col].dtype.kind == 'f'`
(load.py line 1058). -/
def load_file_validate_column (c : Column) : Column :=
  if c.kind = 'f' then { c with cells := load_file_finitize_cells c.cells } else c

/-- The whole row-validation step of `load_file`, over all columns. -/
def load_file_validate (table : List Column) : List Column :=
  table.map load_file_validate_column

/-- Pointwise effect of the validation step on one float column:
every cell is mapped by "replace NaN with the sentinel". -/
lemma load_file_finitize_cells_eq (cells : List PyFloat) :
    load_file_finitize_cells cells =
      cells.map (fun x => if np_isnan x then PyFloat.finite (-9999) else x) := by
  unfold load_file_finitize_cells
  split
  · rfl
  · next h =>
    have h2 : ∀ x ∈ cells, np_isnan x = false := by
      intro x hx
      by_contra hc
      exact h (List.any_eq_true.mpr ⟨x, hx, by revert hc; cases np_isnan x <;> simp⟩)
    conv_lhs => rw [← List.map_id' cells]
    apply List.map_congr_left
    intro x hx
    rw [h2 x hx]
    rfl

/-- C3 (amended): after the validation step, every cell of a float column
that was NaN equals the sentinel `-9999.0`, every other cell (including
`±inf`) is unchanged, and no cell of the result is NaN.  The step is a
total function: it never raises on bad data. -/
theorem load_file_validate_nan_only (c : Column) (hf : c.kind = 'f') :
    (load_file_validate_column c).cells =
      c.cells.map (fun x => if np_isnan x then PyFloat.finite (-9999) else x) ∧
    ∀ x ∈ (load_file_validate_column c).cells, np_isnan x = false := by
  have hcells : (load_file_validate_column c).cells =
      c.cells.map (fun x => if np_isnan x then PyFloat.finite (-9999) else x) := by
    unfold load_file_validate_column
    rw [if_pos hf, load_file_finitize_cells_eq]
  refine ⟨hcells, ?_⟩
  intro x hx
  rw [hcells] at hx
  obtain ⟨y, _, hy⟩ := List.mem_map.mp hx
  subst hy
  cases y <;> simp [np_isnan]

/-- Witness for `load_file_validate_nan_only` on a concrete float column
holding a NaN and a finite value. -/
theorem load_file_validate_nan_only_witness :
    (load_file_validate_column ⟨"flux", 'f', [PyFloat.nan, PyFloat.finite 2]⟩).cells =
      [PyFloat.nan, PyFloat.finite 2].map
        (fun x => if np_isnan x then PyFloat.finite (-9999) else x) ∧
    ∀ x ∈ (load_file_validate_column
        ⟨"flux", 'f', [PyFloat.nan, PyFloat.finite 2]⟩).cells, np_isnan x = false :=
  load_file_validate_nan_only ⟨"flux", 'f', [PyFloat.nan, PyFloat.finite 2]⟩ rfl

/-- C3 counterexample: a float column holding `+inf`.  `np.isnan` does not
detect infinities, so the validation step leaves the cell unchanged: after
it runs the cell is still non-finite and differs from the sentinel, contrary
to the claim that every cell of every floating-point column is finite and
that each bad cell equals `-9999.0`. -/
theorem load_file_validate_inf_unchanged :
    (load_file_validate_column ⟨"flux", 'f', [PyFloat.posInf]⟩).cells =
        [PyFloat.posInf] ∧
      np_isfinite PyFloat.posInf = false ∧
      PyFloat.posInf ≠ PyFloat.finite (-9999) := by
  refine ⟨rfl, rfl, ?_⟩
  decide

/-! ### File-format dispatch of `load_file` (load.py, lines 1032-1044)

`load_file` iterates over `filepaths`; a path ending in `.fits`, `.fits.gz`,
`.ecsv` or `.csv` is read and loaded, any other path hits the
`log.error(...); return` branch: the function logs and returns `None`,
aborting the remaining files.  No exception is raised.  The per-file work is
abstracted by `rowsOf`, the number of rows the file contributes to the
grand total. -/

/-- `str.endswith(suffix)`, computed on the character lists. -/
def str_endswith (s suffix : String) : Bool :=
  suffix.toList.isSuffixOf s.toList

/-- The extension dispatch of load.py lines 1033-1041. -/
def readable_format (filepath : String) : Bool :=
  str_endswith filepath ".fits" || str_endswith filepath ".fits.gz" ||
    str_endswith filepath ".ecsv" || str_endswith filepath ".csv"

/-- The possible outcomes of a `load_file` call: a grand total of rows
(`return loaded_rows`), the bare `return` of line 1044 (Python `None`), or
a raised typed error — the last is what the specification asks for; the
source never produces it. -/
inductive LoadOutcome where
  | count (n : Nat)
  | noneReturn
  | raised (filepath : String)
deriving DecidableEq

/-- Whether an outcome is a typed error surfaced to the caller
(modelled from the spec; the claim side of C9). -/
def isTypedError : LoadOutcome → Bool
  | .raised _ => true
  | _ => false

/-- The file loop of `load_file` (load.py lines 1032-1044 and 1165),
keeping only what the format dispatch decides: readable files accumulate
their row counts, the first unreadable file triggers the bare `return`. -/
def load_file_outcome (filepaths : List String) (rowsOf : String → Nat)
    (acc : Nat) : LoadOutcome :=
  match filepaths with
  | [] => .count acc
  | fp :: rest =>
      if readable_format fp then load_file_outcome rest rowsOf (acc + rowsOf fp)
      else .noneReturn

/-- C9 (amended): an unrecognized file extension aborts the current file
and all remaining files, but it is surfaced as a logged error and a `None`
return value, not as a typed error identifying the file. -/
theorem load_file_unreadable_returns_none (filepaths : List String)
    (rowsOf : String → Nat) (acc : Nat)
    (h : ∃ fp ∈ filepaths, readable_format fp = false) :
    load_file_outcome filepaths rowsOf acc = LoadOutcome.noneReturn ∧
      isTypedError (load_file_outcome filepaths rowsOf acc) = false := by
  suffices hs : load_file_outcome filepaths rowsOf acc = LoadOutcome.noneReturn by
    exact ⟨hs, by rw [hs]; rfl⟩
  induction filepaths generalizing acc with
  | nil => obtain ⟨fp, hmem, _⟩ := h; cases hmem
  | cons fp rest ih =>
      obtain ⟨fp0, hmem, hbad⟩ := h
      unfold load_file_outcome
      rcases List.mem_cons.mp hmem with heq | hmem0
      · subst heq
        rw [hbad]
        rfl
      · by_cases hr : readable_format fp = true
        · rw [hr]
          simp only [if_true]
          exact ih (acc + rowsOf fp) ⟨fp0, hmem0, hbad⟩
        · rw [Bool.not_eq_true] at hr
          rw [hr]
          rfl

/-- Witness for `load_file_unreadable_returns_none` on a single
unrecognized file. -/
theorem load_file_unreadable_returns_none_witness :
    load_file_outcome ["targets.txt"] (fun _ => 5) 0 = LoadOutcome.noneReturn ∧
      isTypedError (load_file_outcome ["targets.txt"] (fun _ => 5) 0) = false :=
  load_file_unreadable_returns_none ["targets.txt"] (fun _ => 5) 0
    ⟨"targets.txt", by decide, by decide⟩

/-- C9 counterexample: on the concrete path "targets.txt" `load_file`
returns Python `None` (the bare `return` of load.py line 1044) and no typed
error reaches the caller, contrary to the claim. -/
theorem load_file_unreadable_counterexample :
    load_file_outcome ["targets.txt"] (fun _ => 0) 0 = LoadOutcome.noneReturn ∧
      isTypedError (load_file_outcome ["targets.txt"] (fun _ => 0) 0) = false := by
  constructor
  · rfl
  · rfl

/-! ### Chunked loader (load.py, lines 1083-1165)

After the row filter, `finalrows` rows remain; `load_file` computes
`n_chunks = finalrows // chunksize`, adds one when `finalrows % chunksize`
is nonzero, and for `k in range(n_chunks)` takes the slice
`data_rows[k*chunksize : (k+1)*chunksize]`.  A non-empty chunk is executed
as one plain bulk insert (`engine.execute(tcls.__table__.insert(), chunk)`)
and its length is added to `loaded_rows`; an empty chunk is only logged.
`load_file` has no conflict-resolution parameter: the statement is always a
plain insert. -/

/-- `n_chunks = finalrows//chunksize; if finalrows % chunksize: n_chunks += 1`
(load.py lines 1142-1144). -/
def load_file_n_chunks (finalrows chunksize : Nat) : Nat :=
  finalrows / chunksize + (if finalrows % chunksize ≠ 0 then 1 else 0)

/-- The slice `data_rows[k*chunksize : (k+1)*chunksize]` (load.py line 1147). -/
def load_file_chunk {α : Type} (rows : List α) (chunksize k : Nat) : List α :=
  (rows.drop (k * chunksize)).take chunksize

/-- The sequence of chunks taken by the loop `for k in range(n_chunks)`
(load.py line 1145). -/
def load_file_chunks {α : Type} (rows : List α) (chunksize : Nat) : List (List α) :=
  (List.range (load_file_n_chunks rows.length chunksize)).map
    (load_file_chunk rows chunksize)

/-- The SQL statement executed for one chunk.  The source only ever builds
`tcls.__table__.insert()`; the upsert forms appear in the type because the
specification claims they are selectable. -/
inductive Stmt (α : Type) where
  | insertPlain (rows : List α)
  | upsertDoNothing (rows : List α)
  | upsertUpdate (rows : List α)
deriving DecidableEq

/-- Whether a statement resolves primary-key conflicts. -/
def Stmt.isUpsert {α : Type} : Stmt α → Bool
  | .upsertDoNothing _ => true
  | .upsertUpdate _ => true
  | _ => false

/-- The statements executed by the chunk loop (load.py lines 1145-1154):
one plain bulk insert per non-empty chunk; empty chunks only log. -/
def load_file_statements {α : Type} (rows : List α) (chunksize : Nat) :
    List (Stmt α) :=
  ((load_file_chunks rows chunksize).filter (fun c => c.length > 0)).map
    Stmt.insertPlain

/-- `loaded_rows`, accumulated over the chunk loop (load.py lines 1145-1154). -/
def load_file_loaded_rows {α : Type} (rows : List α) (chunksize : Nat) : Nat :=
  (load_file_chunks rows chunksize).foldl
    (fun acc c => if c.length > 0 then acc + c.length else acc) 0

lemma load_file_n_chunks_zero (cs : Nat) : load_file_n_chunks 0 cs = 0 := by
  unfold load_file_n_chunks
  simp

lemma load_file_n_chunks_small (n cs : Nat) (h1 : 1 ≤ cs) (h0 : 0 < n)
    (h2 : n ≤ cs) : load_file_n_chunks n cs = 1 := by
  unfold load_file_n_chunks
  rcases Nat.lt_or_ge n cs with hlt | hge
  · rw [Nat.div_eq_of_lt hlt, Nat.mod_eq_of_lt hlt]
    simp [Nat.pos_iff_ne_zero.mp h0]
  · have heq : n = cs := le_antisymm h2 hge
    subst heq
    rw [Nat.div_self h0, Nat.mod_self]
    simp

lemma load_file_n_chunks_step (n cs : Nat) (h1 : 1 ≤ cs) (h2 : cs < n) :
    load_file_n_chunks n cs = 1 + load_file_n_chunks (n - cs) cs := by
  unfold load_file_n_chunks
  rw [Nat.div_eq_sub_div h1 (le_of_lt h2), Nat.mod_eq_sub_mod (le_of_lt h2)]
  ring_nf

lemma load_file_chunks_nil {α : Type} (cs : Nat) :
    load_file_chunks ([] : List α) cs = [] := by
  unfold load_file_chunks
  rw [List.length_nil, load_file_n_chunks_zero]
  rfl

lemma load_file_chunks_small {α : Type} (rows : List α) (cs : Nat)
    (h1 : 1 ≤ cs) (h0 : rows ≠ []) (h2 : rows.length ≤ cs) :
    load_file_chunks rows cs = [rows] := by
  unfold load_file_chunks
  rw [load_file_n_chunks_small rows.length cs h1 (List.length_pos.mpr h0) h2]
  rw [show List.range 1 = [0] from rfl, List.map_cons, List.map_nil]
  unfold load_file_chunk
  rw [Nat.zero_mul, List.drop_zero, List.take_of_length_le h2]

lemma load_file_chunks_step {α : Type} (rows : List α) (cs : Nat)
    (h1 : 1 ≤ cs) (h2 : cs < rows.length) :
    load_file_chunks rows cs =
      rows.take cs :: load_file_chunks (rows.drop cs) cs := by
  unfold load_file_chunks
  rw [List.length_drop]
  rw [load_file_n_chunks_step rows.length cs h1 h2, Nat.add_comm 1 _,
    List.range_succ_eq_map]
  rw [List.map_cons, List.map_map]
  congr 1
  · unfold load_file_chunk
    rw [Nat.zero_mul, List.drop_zero]
  · apply List.map_congr_left
    intro k _
    unfold load_file_chunk
    have hdd : (rows.drop cs).drop (k * cs) = rows.drop (Nat.succ k * cs) := by
      rw [List.drop_drop, Nat.succ_mul, Nat.add_comm]
    simp only [Function.comp_apply, hdd]

/-- Concatenated in order, the chunks reproduce the filtered rows, and every
chunk respects the chunk-size bound; when the rows are non-empty, every chunk
is non-empty. -/
lemma load_file_chunks_spec {α : Type} (rows : List α) (cs : Nat)
    (h1 : 1 ≤ cs) :
    (load_file_chunks rows cs).flatten = rows ∧
      (∀ c ∈ load_file_chunks rows cs, c.length ≤ cs) ∧
      (∀ c ∈ load_file_chunks rows cs, c ≠ []) := by
  generalize hn : rows.length = n
  induction n using Nat.strong_induction_on generalizing rows with
  | _ n ih =>
    rcases eq_or_ne rows [] with hnil | h0
    · subst hnil
      rw [load_file_chunks_nil]
      simp
    · subst hn
      rcases Nat.lt_or_ge cs rows.length with hlt | hge
      · rw [load_file_chunks_step rows cs h1 hlt]
        have hdrop : (rows.drop cs).length = rows.length - cs :=
          List.length_drop cs rows
        have hpos : 0 < rows.length := List.length_pos.mpr h0
        have hlt2 : rows.length - cs < rows.length := by omega
        obtain ⟨ihj, ihb, ihne⟩ := ih (rows.length - cs) hlt2 (rows.drop cs) hdrop
        refine ⟨?_, ?_, ?_⟩
        · rw [List.flatten_cons, ihj, List.take_append_drop]
        · intro c hc
          rcases List.mem_cons.mp hc with rfl | hc2
          · exact List.length_take_le cs rows
          · exact ihb c hc2
        · intro c hc
          rcases List.mem_cons.mp hc with rfl | hc2
          · intro habs
            have hlen := congrArg List.length habs
            rw [List.length_take, List.length_nil] at hlen
            have := Nat.min_le_left cs rows.length
            have := Nat.min_le_right cs rows.length
            omega
          · exact ihne c hc2
      · rw [load_file_chunks_small rows cs h1 h0 hge]
        refine ⟨by simp, ?_, ?_⟩
        · intro c hc
          rw [List.mem_singleton] at hc
          subst hc
          exact hge
        · intro c hc
          rw [List.mem_singleton] at hc
          subst hc
          exact h0

lemma load_file_loaded_rows_eq_sum {α : Type} (chunks : List (List α))
    (a : Nat) :
    chunks.foldl (fun acc c => if c.length > 0 then acc + c.length else acc) a =
      a + (chunks.map List.length).sum := by
  induction chunks generalizing a with
  | nil => simp
  | cons c rest ih =>
      rw [List.foldl_cons, ih]
      rcases Nat.eq_zero_or_pos c.length with hz | hp
      · simp [hz]
      · simp only [hp, if_pos]
        simp
        omega

/-- C4: for every chunk size `>= 1`, the chunk loop partitions the filtered
rows into consecutive chunks of at most `chunksize` rows, the concatenation
of the chunks is the filtered row list itself in file order (hence identical
for any two chunk sizes), and the returned grand total `loaded_rows` equals
the number of rows surviving the row filter, for every chunk size. -/
theorem load_file_chunking_invariant {α : Type} (data : List α)
    (rowfilter : α → Bool) (cs cs1 cs2 : Nat)
    (h : 1 ≤ cs) (ha : 1 ≤ cs1) (hb : 1 ≤ cs2) :
    (∀ c ∈ load_file_chunks (data.filter rowfilter) cs, c.length ≤ cs) ∧
      (load_file_chunks (data.filter rowfilter) cs).flatten =
        data.filter rowfilter ∧
      (load_file_chunks (data.filter rowfilter) cs1).flatten =
        (load_file_chunks (data.filter rowfilter) cs2).flatten ∧
      load_file_loaded_rows (data.filter rowfilter) cs =
        (data.filter rowfilter).length ∧
      load_file_loaded_rows (data.filter rowfilter) cs1 =
        load_file_loaded_rows (data.filter rowfilter) cs2 := by
  have hspec := load_file_chunks_spec (data.filter rowfilter) cs h
  have hspec1 := load_file_chunks_spec (data.filter rowfilter) cs1 ha
  have hspec2 := load_file_chunks_spec (data.filter rowfilter) cs2 hb
  have hloaded : ∀ cz : Nat, 1 ≤ cz →
      load_file_loaded_rows (data.filter rowfilter) cz =
        (data.filter rowfilter).length := by
    intro cz hcz
    unfold load_file_loaded_rows
    rw [load_file_loaded_rows_eq_sum, Nat.zero_add, ← List.length_flatten,
      (load_file_chunks_spec (data.filter rowfilter) cz hcz).1]
  refine ⟨hspec.2.1, hspec.1, ?_, hloaded cs h, ?_⟩
  · rw [hspec1.1, hspec2.1]
  · rw [hloaded cs1 ha, hloaded cs2 hb]

/-- Witness for `load_file_chunking_invariant` on a five-row batch with
chunk sizes 2, 1 and 3. -/
theorem load_file_chunking_invariant_witness :
    (∀ c ∈ load_file_chunks ([10, 11, 12, 13, 14].filter (fun _ => true)) 2,
        c.length ≤ 2) ∧
      (load_file_chunks ([10, 11, 12, 13, 14].filter (fun _ => true)) 2).flatten =
        [10, 11, 12, 13, 14].filter (fun _ => true) ∧
      (load_file_chunks ([10, 11, 12, 13, 14].filter (fun _ => true)) 1).flatten =
        (load_file_chunks ([10, 11, 12, 13, 14].filter (fun _ => true)) 3).flatten ∧
      load_file_loaded_rows ([10, 11, 12, 13, 14].filter (fun _ => true)) 2 =
        ([10, 11, 12, 13, 14].filter (fun _ => true)).length ∧
      load_file_loaded_rows ([10, 11, 12, 13, 14].filter (fun _ => true)) 1 =
        load_file_loaded_rows ([10, 11, 12, 13, 14].filter (fun _ => true)) 3 :=
  load_file_chunking_invariant [10, 11, 12, 13, 14] (fun _ => true) 2 1 3
    (by norm_num) (by norm_num) (by norm_num)

/-- C5 (amended): for each non-empty chunk the chunk loop of `load_file`
executes exactly one statement, and that statement is always a plain bulk
insert — `load_file` offers no insert-with-conflict-resolution and no
per-call conflict policy (the upsert statements used elsewhere in the
package are not available from `load_file`). -/
theorem load_file_statements_plain {α : Type} (rows : List α) (cs : Nat)
    (h : 1 ≤ cs) :
    load_file_statements rows cs =
        (load_file_chunks rows cs).map Stmt.insertPlain ∧
      ∀ st ∈ load_file_statements rows cs, st.isUpsert = false := by
  obtain ⟨-, -, hne⟩ := load_file_chunks_spec rows cs h
  constructor
  · unfold load_file_statements
    congr 1
    rw [List.filter_eq_self]
    intro c hc
    have := hne c hc
    simp only [gt_iff_lt, decide_eq_true_eq]
    exact List.length_pos.mpr this
  · intro st hst
    unfold load_file_statements at hst
    obtain ⟨c, -, rfl⟩ := List.mem_map.mp hst
    rfl

/-- Witness for `load_file_statements_plain` on a two-row batch with chunk
size 1. -/
theorem load_file_statements_plain_witness :
    load_file_statements [10, 20] 1 =
        (load_file_chunks [10, 20] 1).map Stmt.insertPlain ∧
      ∀ st ∈ load_file_statements [10, 20] 1, st.isUpsert = false :=
  load_file_statements_plain [10, 20] 1 (by norm_num)

/-- C5 counterexample: on a concrete one-row batch, the only statement the
chunk loop executes is the plain bulk insert of that row; no
insert-with-conflict-resolution statement is executed, and `load_file`
exposes no parameter that could select one, contrary to the claim that the
conflict policy is selectable per call. -/
theorem load_file_statements_counterexample :
    load_file_statements [(42 : Nat)] 1 = [Stmt.insertPlain [42]] ∧
      (load_file_statements [(42 : Nat)] 1).any Stmt.isUpsert = false := by
  constructor
  · rfl
  · rfl

/-! ### Incremental deduplication filter (load.py, lines 899-933)

`_deduplicate_targetid(data)` queries the loaded `(targetid, ls_id)` pairs
from the Photometry table, left-joins the batch `TARGETID` column against
them, and collects the batch TARGETIDs whose `LS_ID` came back masked —
exactly the batch TARGETIDs not yet present in Photometry.  (When every
TARGETID is already loaded, the `LS_ID` column of the join is unmasked, the
`.mask` access raises `AttributeError`, and the except-branch leaves the
all-False mask unchanged.)  Via `np.unique(..., return_index=True)` each
such TARGETID is then mapped to the index of its *first* occurrence in the
batch, and only those positions of the boolean mask are set to True.

The persisted Photometry state is embedded as the list `loaded` of its
targetids (its primary key); the batch as the list `data` of its TARGETID
column.  The order in which the masked TARGETIDs are produced by the join
differs from the batch order (astropy sorts by the join key), but the fold
below sets mask positions to True, which is order-insensitive, so batch
order is used. -/

/-- The batch TARGETIDs whose left-join `LS_ID` is masked, i.e. that are
not present in Photometry (load.py lines 913-929). -/
def load_targetids (data loaded : List Nat) : List Nat :=
  data.filter (fun t => !(loaded.contains t))

/-- `_deduplicate_targetid` (load.py lines 899-933): start from an
all-False mask of batch length and set to True the first-occurrence index
(`np.unique(..., return_index=True)`) of every TARGETID not yet loaded. -/
def _deduplicate_targetid (data loaded : List Nat) : List Bool :=
  (load_targetids data loaded).foldl
    (fun m t => m.set (List.indexOf t data) true)
    (List.replicate data.length false)

lemma contains_iff_mem (l : List Nat) (t : Nat) : l.contains t = true ↔ t ∈ l :=
  List.elem_iff

lemma dedup_fold_length (f : Nat → Nat) (l : List Nat) (m : List Bool) :
    (l.foldl (fun acc t => acc.set (f t) true) m).length = m.length := by
  induction l generalizing m with
  | nil => rfl
  | cons t l ih => rw [List.foldl_cons, ih, List.length_set]

lemma dedup_fold_mem (f : Nat → Nat) (l : List Nat) (m : List Bool) (i : Nat) :
    ((l.foldl (fun acc t => acc.set (f t) true) m)[i]? = some true) ↔
      (m[i]? = some true ∨ (i < m.length ∧ ∃ t ∈ l, f t = i)) := by
  induction l generalizing m with
  | nil => simp
  | cons t l ih =>
      rw [List.foldl_cons, ih, List.length_set, List.getElem?_set]
      by_cases hfi : f t = i
      · subst hfi
        rw [if_pos rfl]
        by_cases hlen : f t < m.length
        · rw [if_pos hlen]
          constructor
          · intro _
            exact Or.inr ⟨hlen, t, List.mem_cons_self t l, rfl⟩
          · intro _
            exact Or.inl rfl
        · rw [if_neg hlen]
          have hnone : m[f t]? = none := List.getElem?_eq_none (by omega)
          constructor
          · rintro (h | ⟨hlt, -⟩)
            · cases h
            · omega
          · rintro (h | ⟨hlt, -⟩)
            · rw [hnone] at h
              cases h
            · omega
      · rw [if_neg hfi]
        constructor
        · rintro (h | ⟨hlt, t', ht', hft'⟩)
          · exact Or.inl h
          · exact Or.inr ⟨hlt, t', List.mem_cons_of_mem t ht', hft'⟩
        · rintro (h | ⟨hlt, t', ht', hft'⟩)
          · exact Or.inl h
          · rcases List.mem_cons.mp ht' with rfl | ht''
            · exact absurd hft' hfi
            · exact Or.inr ⟨hlt, t', ht'', hft'⟩

/-- The mask returned by `_deduplicate_targetid` is True at position `i`
exactly when the batch value at `i` is not yet loaded and `i` is the first
occurrence of that value in the batch. -/
lemma dedup_mask_iff (data loaded : List Nat) (i : Nat) :
    ((_deduplicate_targetid data loaded)[i]? = some true) ↔
      (∃ h : i < data.length,
        loaded.contains (data.get ⟨i, h⟩) = false ∧
          List.indexOf (data.get ⟨i, h⟩) data = i) := by
  unfold _deduplicate_targetid
  rw [dedup_fold_mem]
  simp only [List.getElem?_replicate, List.length_replicate]
  constructor
  · rintro (h | ⟨hlt, t, htmem, hti⟩)
    · split at h
      · cases h
      · cases h
    · obtain ⟨htdata, htload⟩ := List.mem_filter.mp htmem
      subst hti
      have hidx : List.indexOf t data < data.length :=
        List.indexOf_lt_length.mpr htdata
      have hget : data.get ⟨List.indexOf t data, hlt⟩ = t := by
        simpa using List.getElem_indexOf hidx
      refine ⟨hlt, ?_, ?_⟩
      · rw [hget]
        rw [Bool.not_eq_true'] at htload
        exact htload
      · rw [hget]
  · rintro ⟨hlt, hload, hidx⟩
    refine Or.inr ⟨hlt, data.get ⟨i, hlt⟩, ?_, hidx⟩
    refine List.mem_filter.mpr ⟨by simpa using List.getElem_mem hlt, ?_⟩
    rw [Bool.not_eq_true', hload]

/-- Positions inside the batch always carry a Boolean in the mask. -/
lemma dedup_mask_isSome (data loaded : List Nat) (i : Nat)
    (h : i < data.length) :
    (_deduplicate_targetid data loaded)[i]? = some true ∨
      (_deduplicate_targetid data loaded)[i]? = some false := by
  have hlen : (_deduplicate_targetid data loaded).length = data.length := by
    unfold _deduplicate_targetid
    rw [dedup_fold_length, List.length_replicate]
  have hlt : i < (_deduplicate_targetid data loaded).length := by omega
  rcases hb : (_deduplicate_targetid data loaded)[i] with _ | _
  · right
    rw [List.getElem?_eq_some]
    exact ⟨hlt, hb⟩
  · left
    rw [List.getElem?_eq_some]
    exact ⟨hlt, hb⟩

/-- C6: the deduplication filter returns a mask aligned with the batch
(same length), True only at positions whose TARGETID is absent from the
persisted Photometry targetids, and when every batch TARGETID is already
loaded the mask is all-False (the filter returns an empty selection rather
than raising; the embedding is a total function). -/
theorem dedup_mask_sound (data loaded : List Nat) :
    (_deduplicate_targetid data loaded).length = data.length ∧
      (∀ (i t : Nat), data[i]? = some t →
        (_deduplicate_targetid data loaded)[i]? = some true → t ∉ loaded) ∧
      ((∀ t ∈ data, t ∈ loaded) →
        _deduplicate_targetid data loaded = List.replicate data.length false) := by
  have hlen : (_deduplicate_targetid data loaded).length = data.length := by
    unfold _deduplicate_targetid
    rw [dedup_fold_length, List.length_replicate]
  refine ⟨hlen, ?_, ?_⟩
  · intro i t hdata htrue
    obtain ⟨hlt, hload, -⟩ := (dedup_mask_iff data loaded i).mp htrue
    obtain ⟨hlt2, hget⟩ := List.getElem?_eq_some.mp hdata
    intro habs
    have hgt : data.get ⟨i, hlt⟩ = t := by simpa using hget
    rw [hgt] at hload
    rw [(contains_iff_mem loaded t).mpr habs] at hload
    cases hload
  · intro hall
    apply List.ext_getElem?
    intro i
    rcases Nat.lt_or_ge i data.length with hlt | hge
    · rw [List.getElem?_replicate, if_pos hlt]
      rcases dedup_mask_isSome data loaded i hlt with htrue | hfalse
      · obtain ⟨hlt2, hload, -⟩ := (dedup_mask_iff data loaded i).mp htrue
        have hmem : data.get ⟨i, hlt2⟩ ∈ data := by
          simpa using List.getElem_mem hlt2
        have := (contains_iff_mem loaded _).mpr (hall _ hmem)
        rw [this] at hload
        cases hload
      · exact hfalse
    · rw [List.getElem?_eq_none (by omega), List.getElem?_eq_none]
      rw [List.length_replicate]
      omega

/-- Witness for `dedup_mask_sound`: a batch whose two TARGETIDs are both
already loaded yields the all-False mask. -/
theorem dedup_mask_sound_witness :
    (∀ t ∈ [42, 7], t ∈ [42, 7]) ∧
      _deduplicate_targetid [42, 7] [42, 7] =
        List.replicate ([42, 7] : List Nat).length false :=
  ⟨fun t ht => ht, (dedup_mask_sound [42, 7] [42, 7]).2.2 (fun t ht => ht)⟩

/-- C10: for a TARGETID not yet loaded that occurs (possibly repeatedly) in
the batch, the mask is True exactly at its first occurrence and False at
every other occurrence, so the filtered batch never contains two rows with
the same TARGETID. -/
theorem dedup_mask_first_occurrence (data loaded : List Nat) (t : Nat)
    (hmem : t ∈ data) (hnew : t ∉ loaded) :
    (_deduplicate_targetid data loaded)[List.indexOf t data]? = some true ∧
      (∀ j, data[j]? = some t → j ≠ List.indexOf t data →
        (_deduplicate_targetid data loaded)[j]? = some false) := by
  have hcontains : loaded.contains t = false := by
    rw [← Bool.not_eq_true, contains_iff_mem]
    exact hnew
  have hidx : List.indexOf t data < data.length :=
    List.indexOf_lt_length.mpr hmem
  have hget : data.get ⟨List.indexOf t data, hidx⟩ = t := by
    simpa using List.getElem_indexOf hidx
  constructor
  · rw [dedup_mask_iff]
    exact ⟨hidx, by rw [hget]; exact hcontains, by rw [hget]⟩
  · intro j hj hne
    obtain ⟨hjlt, hjget⟩ := List.getElem?_eq_some.mp hj
    rcases dedup_mask_isSome data loaded j hjlt with htrue | hfalse
    · obtain ⟨hlt2, -, hidx2⟩ := (dedup_mask_iff data loaded j).mp htrue
      have hjt : data.get ⟨j, hlt2⟩ = t := by simpa using hjget
      rw [hjt] at hidx2
      exact absurd hidx2.symm hne
    · exact hfalse

/-- Witness for `dedup_mask_first_occurrence`: a batch holding TARGETID 42
twice, none loaded yet; only the first occurrence is selected. -/
theorem dedup_mask_first_occurrence_witness :
    (_deduplicate_targetid [42, 42] [])[List.indexOf 42 [42, 42]]? = some true ∧
      (∀ j, ([42, 42] : List Nat)[j]? = some 42 → j ≠ List.indexOf 42 [42, 42] →
        (_deduplicate_targetid [42, 42] [])[j]? = some false) :=
  dedup_mask_first_occurrence [42, 42] [] 42 (by decide) (by decide)

/-! ### Post-load bitmask reconciliation (load.py, lines 1191-1345)

`zpix_target(specprod)` repairs the targeting bitmask columns of the Zpix
table.  The database state is embedded as three in-memory tables:

* `TargetRow`: one row of the Target table — `targetid`, `tileid`,
  `survey`, `program` and the 17 targeting-bitmask columns;
* `FiberRow`: the `(targetid, tileid)` projection of Fiberassign that the
  join condition uses;
* `ZpixRow`: one row of Zpix — `targetid`, `survey`, `program` and the same
  17 bitmask columns.

SQL result sets are embedded as lists; `DISTINCT` and the `GROUP BY` key
sets use `List.dedup` (the row order of a SQL result set is unspecified).
`Query.one()` demands exactly one matching row and raises otherwise, so the
update loop is `Option`-valued. -/

/-- The 17 targeting-bitmask columns, in the order of the `masks` list of
load.py lines 1301-1304 (`['cmx_target'] + [s_p_target for s in
('', 'sv1', 'sv2', 'sv3') for p in ('desi', 'bgs', 'mws', 'scnd')]`). -/
structure Masks where
  cmx_target : Nat
  desi_target : Nat
  bgs_target : Nat
  mws_target : Nat
  scnd_target : Nat
  sv1_desi_target : Nat
  sv1_bgs_target : Nat
  sv1_mws_target : Nat
  sv1_scnd_target : Nat
  sv2_desi_target : Nat
  sv2_bgs_target : Nat
  sv2_mws_target : Nat
  sv2_scnd_target : Nat
  sv3_desi_target : Nat
  sv3_bgs_target : Nat
  sv3_mws_target : Nat
  sv3_scnd_target : Nat
deriving DecidableEq

/-- All bitmask columns zero (the neutral element of `BIT_OR`). -/
def zeroMasks : Masks :=
  ⟨0, 0, 0, 0, 0, 0, 0, 0, 0, 0, 0, 0, 0, 0, 0, 0, 0⟩

/-- Column-wise `BIT_OR` aggregation step. -/
def orMasks (a b : Masks) : Masks where
  cmx_target := a.cmx_target ||| b.cmx_target
  desi_target := a.desi_target ||| b.desi_target
  bgs_target := a.bgs_target ||| b.bgs_target
  mws_target := a.mws_target ||| b.mws_target
  scnd_target := a.scnd_target ||| b.scnd_target
  sv1_desi_target := a.sv1_desi_target ||| b.sv1_desi_target
  sv1_bgs_target := a.sv1_bgs_target ||| b.sv1_bgs_target
  sv1_mws_target := a.sv1_mws_target ||| b.sv1_mws_target
  sv1_scnd_target := a.sv1_scnd_target ||| b.sv1_scnd_target
  sv2_desi_target := a.sv2_desi_target ||| b.sv2_desi_target
  sv2_bgs_target := a.sv2_bgs_target ||| b.sv2_bgs_target
  sv2_mws_target := a.sv2_mws_target ||| b.sv2_mws_target
  sv2_scnd_target := a.sv2_scnd_target ||| b.sv2_scnd_target
  sv3_desi_target := a.sv3_desi_target ||| b.sv3_desi_target
  sv3_bgs_target := a.sv3_bgs_target ||| b.sv3_bgs_target
  sv3_mws_target := a.sv3_mws_target ||| b.sv3_mws_target
  sv3_scnd_target := a.sv3_scnd_target ||| b.sv3_scnd_target

/-- One row of the Target table. -/
structure TargetRow where
  targetid : Nat
  tileid : Nat
  survey : String
  program : String
  masks : Masks
deriving DecidableEq

/-- The `(targetid, tileid)` projection of one Fiberassign row. -/
structure FiberRow where
  targetid : Nat
  tileid : Nat
deriving DecidableEq

/-- One row of the Zpix table. -/
structure ZpixRow where
  targetid : Nat
  survey : String
  program : String
  masks : Masks
deriving DecidableEq

/-- The database state seen by `zpix_target`. -/
structure DB where
  targets : List TargetRow
  fibers : List FiberRow
  zpix : List ZpixRow
deriving DecidableEq

/-- The `specprod_survey_program` dictionary (load.py lines 1199-1211);
an unknown production raises `KeyError`. -/
def specprod_survey_program : String → Option (List (String × List String))
  | "fuji" => some [("cmx", ["other"]),
                    ("special", ["dark"]),
                    ("sv1", ["backup", "bright", "dark", "other"]),
                    ("sv2", ["backup", "bright", "dark"]),
                    ("sv3", ["backup", "bright", "dark"])]
  | "guadalupe" => some [("special", ["bright", "dark"]),
                         ("main", ["bright", "dark"])]
  | "iron" => some [("cmx", ["other"]),
                    ("main", ["backup", "bright", "dark"]),
                    ("special", ["backup", "bright", "dark", "other"]),
                    ("sv1", ["backup", "bright", "dark", "other"]),
                    ("sv2", ["backup", "bright", "dark"]),
                    ("sv3", ["backup", "bright", "dark"])]
  | _ => none

/-- The `target_bits` dictionary (load.py lines 1212-1217): the bitmask
columns examined per survey.  The bit names only label log output; what
matters is the column accessor. -/
def target_bits : String → List (Masks → Nat)
  | "cmx" => [Masks.cmx_target]
  | "sv1" => [Masks.sv1_desi_target, Masks.sv1_bgs_target, Masks.sv1_mws_target]
  | "sv2" => [Masks.sv2_desi_target, Masks.sv2_bgs_target, Masks.sv2_mws_target]
  | "sv3" => [Masks.sv3_desi_target, Masks.sv3_bgs_target, Masks.sv3_mws_target]
  | "main" => [Masks.desi_target, Masks.bgs_target, Masks.mws_target]
  | "special" => [Masks.desi_target, Masks.bgs_target, Masks.mws_target]
  | _ => []

/-- `assigned_multiple_tiles[survey][program]` (load.py lines 1221-1227):
targetids of Target rows in the partition that join a Fiberassign row on
`(targetid, tileid)`, grouped by targetid, `HAVING COUNT(tileid) > 1`. -/
def assigned_multiple_tiles (targets : List TargetRow) (fibers : List FiberRow)
    (s p : String) : List Nat :=
  let joined :=
    ((targets.filter (fun tr => tr.survey == s && tr.program == p)).bind
      (fun tr => (fibers.filter
        (fun fr => fr.targetid == tr.targetid && fr.tileid == tr.tileid)).map
          (fun _ => tr.targetid)))
  joined.dedup.filter (fun t => joined.count t > 1)

/-- `distinct_target[survey][program][bits]` (load.py lines 1231-1237):
the `DISTINCT (targetid, bit-column)` pairs of the partition restricted to
`assigned_multiple_tiles`. -/
def distinct_target (targets : List TargetRow) (amt : List Nat)
    (s p : String) (col : Masks → Nat) : List (Nat × Nat) :=
  ((targets.filter
    (fun tr => amt.contains tr.targetid && tr.survey == s && tr.program == p)).map
      (fun tr => (tr.targetid, col tr.masks))).dedup

/-- `multiple_target[survey][program][bits]` (load.py lines 1241-1253):
targetids for which the distinct pairs carry more than one value of the
bit column. -/
def multiple_target (targets : List TargetRow) (amt : List Nat)
    (s p : String) (col : Masks → Nat) : List Nat :=
  let dp := distinct_target targets amt s p col
  ((dp.map Prod.fst).dedup).filter
    (fun t => (dp.filter (fun pr => pr.1 == t)).length > 1)

/-- `targetids_to_fix[survey][program]` before the ToO special case
(load.py lines 1257-1271): the concatenation over the survey's bit columns
of `multiple_target`.  (The source appends only non-empty lists; the
concatenation holds the same elements, and only membership is used.) -/
def targetids_to_fix (targets : List TargetRow) (fibers : List FiberRow)
    (s p : String) : List Nat :=
  let amt := assigned_multiple_tiles targets fibers s p
  (target_bits s).bind (fun col => multiple_target targets amt s p col)

/-- `zero_ToO[survey][program]` (load.py lines 1279-1283, `fuji` only):
Zpix targetids whose embedded object id field
`(targetid & ((2^16 - 1) << 42)) >> 42` equals 9999. -/
def zero_ToO (zpix : List ZpixRow) (s p : String) : List Nat :=
  (zpix.filter (fun zr =>
    ((zr.targetid &&& ((2 ^ 16 - 1) <<< 42)) >>> 42) == 9999 &&
      zr.survey == s && zr.program == p)).map (fun zr => zr.targetid)

/-- The `WHERE` clause of `bit_or_query[survey][program]` (load.py line
1314): Target rows of the partition whose targetid is in the consolidated
list. -/
def bit_or_sel (targets : List TargetRow) (fixlist : List Nat)
    (s p : String) : List TargetRow :=
  targets.filter
    (fun tr => fixlist.contains tr.targetid && tr.survey == s && tr.program == p)

/-- One group of `bit_or_query[survey][program]` (load.py lines 1305-1316):
the selected rows grouped by targetid, every bitmask column aggregated with
`BIT_OR`. -/
def bit_or_rows (targets : List TargetRow) (fixlist : List Nat)
    (s p : String) : List (Nat × Masks) :=
  (((bit_or_sel targets fixlist s p).map (fun tr => tr.targetid)).dedup).map
    (fun t => (t, (((bit_or_sel targets fixlist s p).filter
      (fun tr => tr.targetid == t)).map
        (fun tr => tr.masks)).foldl orMasks zeroMasks))

/-- One pending Zpix update: the row key and the aggregated masks that
lines 1327-1343 of load.py assign to it. -/
structure Update where
  survey : String
  program : String
  targetid : Nat
  masks : Masks
deriving DecidableEq

/-- The full list of updates the pass will apply, in loop order
(load.py lines 1221-1316 compute it from Target, Fiberassign, and — for
`fuji` — the Zpix targetids; the Zpix bitmask columns are never read). -/
def updatesFor (specprod : String) (sp : List (String × List String))
    (targets : List TargetRow) (fibers : List FiberRow)
    (zpix : List ZpixRow) : List Update :=
  sp.bind (fun sps =>
    sps.2.bind (fun p =>
      (bit_or_rows targets
        (targetids_to_fix targets fibers sps.1 p ++
          (if specprod == "fuji" then zero_ToO zpix sps.1 p else []))
        sps.1 p).map
          (fun tm => ⟨sps.1, p, tm.1, tm.2⟩)))

/-- The row-match condition of the update query
`Zpix.targetid == .. AND Zpix.survey == .. AND Zpix.program == ..`
(load.py line 1324). -/
def matchesU (u : Update) (r : ZpixRow) : Bool :=
  r.targetid == u.targetid && r.survey == u.survey && r.program == u.program

/-- The 17 attribute assignments of load.py lines 1327-1343, applied to a
row when it matches. -/
def setRow (u : Update) (r : ZpixRow) : ZpixRow :=
  if matchesU u r then { r with masks := u.masks } else r

/-- One iteration of the update loop: `.one()` demands exactly one matching
Zpix row (otherwise `NoResultFound`/`MultipleResultsFound` is raised), then
the bitmask columns of that row are overwritten. -/
def applyOne (u : Update) (z : List ZpixRow) : Option (List ZpixRow) :=
  if (z.filter (matchesU u)).length == 1 then some (z.map (setRow u)) else none

/-- The update loop of load.py lines 1321-1344. -/
def applyAll : List Update → List ZpixRow → Option (List ZpixRow)
  | [], z => some z
  | u :: us, z =>
      match applyOne u z with
      | none => none
      | some z1 => applyAll us z1

/-- `zpix_target(specprod)` (load.py lines 1191-1345). -/
def zpix_target (specprod : String) (db : DB) : Option DB :=
  match specprod_survey_program specprod with
  | none => none
  | some sp =>
      (applyAll (updatesFor specprod sp db.targets db.fibers db.zpix)
        db.zpix).map (fun z => { db with zpix := z })

/-- Masks with a given `desi_target` value and all other columns zero. -/
def masksDesi (d : Nat) : Masks :=
  ⟨0, d, 0, 0, 0, 0, 0, 0, 0, 0, 0, 0, 0, 0, 0, 0, 0⟩

/-- The duplicate-target scenario: targetid 42 observed on tiles 100 and
200 of the `iron` production, survey "main", program "dark", with
`desi_target` bitmasks `0b0001` and `0b0010`; both assignments are matched
by Fiberassign rows; one Zpix row exists for the partition. -/
def scenarioDB (m0 : Masks) : DB where
  targets := [⟨42, 100, "main", "dark", masksDesi 1⟩,
              ⟨42, 200, "main", "dark", masksDesi 2⟩]
  fibers := [⟨42, 100⟩, ⟨42, 200⟩]
  zpix := [⟨42, "main", "dark", m0⟩]

/-! #### Facts about the update loop -/

/-- The `(targetid, survey, program)` key of a Zpix row — everything the
pass ever reads from Zpix; the bitmask columns are only written. -/
def projZ (r : ZpixRow) : Nat × String × String :=
  (r.targetid, r.survey, r.program)

/-- The row-match condition expressed on the key alone. -/
def matchProj (u : Update) (pr : Nat × String × String) : Bool :=
  pr.1 == u.targetid && pr.2.1 == u.survey && pr.2.2 == u.program

lemma matchesU_eq_proj (u : Update) (r : ZpixRow) :
    matchesU u r = matchProj u (projZ r) := rfl

lemma matchesU_congr (u : Update) (r1 r2 : ZpixRow)
    (h : projZ r1 = projZ r2) : matchesU u r1 = matchesU u r2 := by
  rw [matchesU_eq_proj, matchesU_eq_proj, h]

lemma setRow_proj (u : Update) (r : ZpixRow) : projZ (setRow u r) = projZ r := by
  unfold setRow
  split <;> rfl

lemma setmask_setmask (r : ZpixRow) (a b : Masks) :
    ({ { r with masks := a } with masks := b } : ZpixRow) = { r with masks := b } := by
  cases r
  rfl

lemma projZ_setmask (r : ZpixRow) (a : Masks) :
    projZ { r with masks := a } = projZ r := by
  cases r
  rfl

/-- Per-row effect of the whole update loop. -/
def foldSet (us : List Update) (r : ZpixRow) : ZpixRow :=
  us.foldl (fun r u => setRow u r) r

lemma foldSet_cons (u : Update) (us : List Update) (r : ZpixRow) :
    foldSet (u :: us) r = foldSet us (setRow u r) := rfl

lemma foldSet_proj (us : List Update) (r : ZpixRow) :
    projZ (foldSet us r) = projZ r := by
  induction us generalizing r with
  | nil => rfl
  | cons u us ih => rw [foldSet_cons, ih, setRow_proj]

lemma map_setRow_proj (u : Update) (l : List ZpixRow) :
    (l.map (setRow u)).map projZ = l.map projZ := by
  rw [List.map_map]
  apply List.map_congr_left
  intro r _
  exact setRow_proj u r

lemma applyAll_nil (z : List ZpixRow) : applyAll [] z = some z := rfl

lemma applyAll_cons (u : Update) (us : List Update) (z : List ZpixRow) :
    applyAll (u :: us) z =
      match applyOne u z with
      | none => none
      | some z1 => applyAll us z1 := rfl

lemma applyOne_some (u : Update) (z w : List ZpixRow)
    (h : applyOne u z = some w) :
    (z.filter (matchesU u)).length = 1 ∧ w = z.map (setRow u) := by
  unfold applyOne at h
  split at h
  · next hcond =>
      exact ⟨by simpa using hcond, (Option.some.inj h).symm⟩
  · cases h

lemma applyOne_of_count (u : Update) (z : List ZpixRow)
    (h : (z.filter (matchesU u)).length = 1) :
    applyOne u z = some (z.map (setRow u)) := by
  unfold applyOne
  simp [h]

/-- The success value of the update loop is the per-row fold applied to
every row. -/
lemma applyAll_some_map (us : List Update) (z w : List ZpixRow)
    (h : applyAll us z = some w) : w = z.map (foldSet us) := by
  induction us generalizing z with
  | nil =>
      rw [applyAll_nil] at h
      rw [← Option.some.inj h]
      exact (List.map_id z).symm
  | cons u us ih =>
      rw [applyAll_cons] at h
      cases happ : applyOne u z with
      | none => rw [happ] at h; cases h
      | some z1 =>
          rw [happ] at h
          obtain ⟨-, hz1⟩ := applyOne_some u z z1 happ
          rw [ih z1 h, hz1, List.map_map]
          rfl

/-- The number of rows matching an update only depends on the row keys. -/
lemma filter_matches_congr (u : Update) (z1 z2 : List ZpixRow)
    (hz : z1.map projZ = z2.map projZ) :
    (z1.filter (matchesU u)).length = (z2.filter (matchesU u)).length := by
  have h1 : ∀ z : List ZpixRow,
      (z.filter (matchesU u)).length =
        ((z.map projZ).filter (matchProj u)).length := by
    intro z
    rw [List.filter_map, List.length_map]
    rfl
  rw [h1 z1, h1 z2, hz]

/-- If the update loop succeeds on `z`, it also succeeds on any key-equal
row list, producing the per-row fold of that list. -/
lemma applyAll_again (us : List Update) (z w w' : List ZpixRow)
    (h : applyAll us z = some w) (hproj : w'.map projZ = z.map projZ) :
    applyAll us w' = some (w'.map (foldSet us)) := by
  induction us generalizing z w' with
  | nil =>
      rw [applyAll_nil]
      congr 1
      exact (List.map_id w').symm
  | cons u us ih =>
      rw [applyAll_cons] at h
      cases happ : applyOne u z with
      | none => rw [happ] at h; cases h
      | some z1 =>
          rw [happ] at h
          obtain ⟨hcount, hz1⟩ := applyOne_some u z z1 happ
          have hcount' : (w'.filter (matchesU u)).length = 1 := by
            rw [filter_matches_congr u w' z hproj]
            exact hcount
          rw [applyAll_cons, applyOne_of_count u w' hcount']
          have hproj2 : (w'.map (setRow u)).map projZ = z1.map projZ := by
            rw [map_setRow_proj, hproj, hz1, map_setRow_proj]
          show applyAll us (w'.map (setRow u)) = some (w'.map (foldSet (u :: us)))
          rw [ih z1 (w'.map (setRow u)) h hproj2, List.map_map]
          rfl

lemma foldSet_no_match (us : List Update) (r : ZpixRow)
    (h : ∀ u ∈ us, matchesU u r = false) : foldSet us r = r := by
  induction us with
  | nil => rfl
  | cons u us ih =>
      rw [foldSet_cons]
      have hsr : setRow u r = r := by
        unfold setRow
        rw [h u (List.mem_cons_self u us)]
        rfl
      rw [hsr]
      exact ih (fun u' hu' => h u' (List.mem_cons_of_mem u hu'))

lemma foldSet_match (us : List Update) (r : ZpixRow) (m : Masks)
    (hall : ∀ u ∈ us, matchesU u r = true → u.masks = m)
    (hex : ∃ u ∈ us, matchesU u r = true) :
    foldSet us r = { r with masks := m } := by
  induction us generalizing r with
  | nil =>
      obtain ⟨u, hu, -⟩ := hex
      cases hu
  | cons u us ih =>
      rw [foldSet_cons]
      by_cases hm : matchesU u r = true
      · have hum : u.masks = m := hall u (List.mem_cons_self u us) hm
        have hsr : setRow u r = { r with masks := m } := by
          unfold setRow
          rw [if_pos hm, hum]
        by_cases hex2 : ∃ u' ∈ us, matchesU u' r = true
        · obtain ⟨u', hu', hm'⟩ := hex2
          have hall' : ∀ u2 ∈ us, matchesU u2 (setRow u r) = true → u2.masks = m := by
            intro u2 hu2 hm2
            rw [matchesU_congr u2 _ _ (setRow_proj u r)] at hm2
            exact hall u2 (List.mem_cons_of_mem u hu2) hm2
          have hex' : ∃ u2 ∈ us, matchesU u2 (setRow u r) = true :=
            ⟨u', hu', by rw [matchesU_congr u' _ _ (setRow_proj u r)]; exact hm'⟩
          rw [ih (setRow u r) hall' hex', hsr, setmask_setmask]
        · have hnone : ∀ u2 ∈ us, matchesU u2 (setRow u r) = false := by
            intro u2 hu2
            rw [matchesU_congr u2 _ _ (setRow_proj u r)]
            rw [← Bool.not_eq_true]
            exact fun hc => hex2 ⟨u2, hu2, hc⟩
          rw [foldSet_no_match us _ hnone, hsr]
      · have hsr : setRow u r = r := by
          unfold setRow
          rw [if_neg hm]
        rw [hsr]
        obtain ⟨u0, hu0, hm0⟩ := hex
        rcases List.mem_cons.mp hu0 with rfl | hu0'
        · exact absurd hm0 hm
        · exact ih r (fun u2 hu2 hm2 => hall u2 (List.mem_cons_of_mem u hu2) hm2)
            ⟨u0, hu0', hm0⟩

/-- Applying the per-row fold a second time changes nothing, provided every
matching update writes the same masks (which holds for the updates the pass
computes: the masks are a function of the row key and the Target table). -/
lemma foldSet_idem (us : List Update) (r : ZpixRow) (m : Masks)
    (hall : ∀ u ∈ us, matchesU u r = true → u.masks = m) :
    foldSet us (foldSet us r) = foldSet us r := by
  by_cases hex : ∃ u ∈ us, matchesU u r = true
  · have h1 : foldSet us r = { r with masks := m } := foldSet_match us r m hall hex
    have hall' : ∀ u ∈ us, matchesU u ({ r with masks := m }) = true → u.masks = m := by
      intro u hu hm2
      rw [matchesU_congr u _ _ (projZ_setmask r m)] at hm2
      exact hall u hu hm2
    obtain ⟨u0, hu0, hm0⟩ := hex
    have hex' : ∃ u ∈ us, matchesU u ({ r with masks := m }) = true :=
      ⟨u0, hu0, by rw [matchesU_congr u0 _ _ (projZ_setmask r m)]; exact hm0⟩
    rw [h1, foldSet_match us _ m hall' hex', setmask_setmask]
  · have h0 : ∀ u ∈ us, matchesU u r = false := by
      intro u hu
      rw [← Bool.not_eq_true]
      exact fun hc => hex ⟨u, hu, hc⟩
    rw [foldSet_no_match us r h0, foldSet_no_match us r h0]

/-! #### The computed updates depend on Zpix only through the row keys -/

lemma zero_ToO_eq_proj (z : List ZpixRow) (s p : String) :
    zero_ToO z s p =
      ((z.map projZ).filter (fun pr =>
        ((pr.1 &&& ((2 ^ 16 - 1) <<< 42)) >>> 42) == 9999 &&
          pr.2.1 == s && pr.2.2 == p)).map Prod.fst := by
  unfold zero_ToO
  rw [List.filter_map, List.map_map]
  rfl

lemma zero_ToO_congr (z1 z2 : List ZpixRow) (s p : String)
    (hz : z1.map projZ = z2.map projZ) : zero_ToO z1 s p = zero_ToO z2 s p := by
  rw [zero_ToO_eq_proj, zero_ToO_eq_proj, hz]

lemma updatesFor_congr (pr : String) (sp : List (String × List String))
    (targets : List TargetRow) (fibers : List FiberRow)
    (z1 z2 : List ZpixRow) (hz : z1.map projZ = z2.map projZ) :
    updatesFor pr sp targets fibers z1 = updatesFor pr sp targets fibers z2 := by
  have hafter : ∀ s p : String,
      (if pr == "fuji" then zero_ToO z1 s p else []) =
        (if pr == "fuji" then zero_ToO z2 s p else []) := by
    intro s p
    by_cases hb : (pr == "fuji") = true
    · rw [if_pos hb, if_pos hb, zero_ToO_congr z1 z2 s p hz]
    · rw [if_neg hb, if_neg hb]
  unfold updatesFor
  simp only [hafter]

/-- The `BIT_OR` aggregate over all Target rows of one `(survey, program,
targetid)` key — what load.py lines 1312-1316 compute for each group. -/
def maskOrAll (targets : List TargetRow) (s p : String) (t : Nat) : Masks :=
  ((targets.filter
    (fun tr => tr.targetid == t && tr.survey == s && tr.program == p)).map
      (fun tr => tr.masks)).foldl orMasks zeroMasks

/-- Every computed update carries the `BIT_OR` aggregate of its key's
Target rows: the consolidated targetid list only selects which keys are
updated, not the aggregated value. -/
lemma updatesFor_masks (pr : String) (sp : List (String × List String))
    (targets : List TargetRow) (fibers : List FiberRow) (zpix : List ZpixRow)
    (u : Update) (hu : u ∈ updatesFor pr sp targets fibers zpix) :
    u.masks = maskOrAll targets u.survey u.program u.targetid := by
  unfold updatesFor at hu
  obtain ⟨sps, hsps, hu2⟩ := List.mem_bind.mp hu
  obtain ⟨p, hp, hu3⟩ := List.mem_bind.mp hu2
  obtain ⟨tm, htm, rfl⟩ := List.mem_map.mp hu3
  unfold bit_or_rows at htm
  obtain ⟨t, ht, rfl⟩ := List.mem_map.mp htm
  have hfix : ∀ fixlist : List Nat,
      t ∈ ((bit_or_sel targets fixlist sps.1 p).map
        (fun tr => tr.targetid)).dedup →
      fixlist.contains t = true := by
    intro fixlist htmem
    obtain ⟨tr, htr, htr2⟩ := List.mem_map.mp (List.mem_dedup.mp htmem)
    obtain ⟨-, hcond⟩ := List.mem_filter.mp htr
    rw [Bool.and_eq_true, Bool.and_eq_true] at hcond
    rw [← htr2]
    exact hcond.1.1
  have hsel : ∀ fixlist : List Nat, fixlist.contains t = true →
      (bit_or_sel targets fixlist sps.1 p).filter
          (fun tr => tr.targetid == t) =
        targets.filter (fun tr =>
          tr.targetid == t && tr.survey == sps.1 && tr.program == p) := by
    intro fixlist hc
    unfold bit_or_sel
    rw [List.filter_filter]
    apply List.filter_congr
    intro x _
    cases hb : (x.targetid == t) with
    | false => simp [hb]
    | true =>
        have hxeq : x.targetid = t := eq_of_beq hb
        have hmt : t ∈ fixlist := (contains_iff_mem fixlist t).mp hc
        simp [hxeq, hc, hmt]
  show (((bit_or_sel targets _ sps.1 p).filter
      (fun tr => tr.targetid == t)).map (fun tr => tr.masks)).foldl
        orMasks zeroMasks = maskOrAll targets sps.1 p t
  rw [hsel _ (hfix _ ht)]
  rfl

/-- C8: the reconciliation pass is idempotent.  If `zpix_target` succeeds
on a database state, running it again on the result succeeds and changes
nothing: every targeting-bitmask column of every Zpix row keeps the value
the first application gave it. -/
theorem zpix_target_idempotent (pr : String) (db db1 : DB)
    (h : zpix_target pr db = some db1) : zpix_target pr db1 = some db1 := by
  unfold zpix_target at h ⊢
  cases hsp : specprod_survey_program pr with
  | none =>
      rw [hsp] at h
      exact Option.noConfusion h
  | some sp =>
      rw [hsp] at h
      obtain ⟨z1, hz1, hdb1⟩ := Option.map_eq_some'.mp h
      subst hdb1
      have hz1eq : z1 =
          db.zpix.map (foldSet (updatesFor pr sp db.targets db.fibers db.zpix)) :=
        applyAll_some_map _ _ _ hz1
      have hzproj : z1.map projZ = db.zpix.map projZ := by
        rw [hz1eq, List.map_map]
        apply List.map_congr_left
        intro r _
        exact foldSet_proj _ r
      show (applyAll (updatesFor pr sp db.targets db.fibers z1) z1).map
          (fun z => ({ db with zpix := z } : DB)) = some { db with zpix := z1 }
      rw [updatesFor_congr pr sp db.targets db.fibers z1 db.zpix hzproj]
      rw [applyAll_again _ db.zpix z1 z1 hz1 hzproj]
      have hfix : z1.map
          (foldSet (updatesFor pr sp db.targets db.fibers db.zpix)) = z1 := by
        rw [hz1eq, List.map_map]
        apply List.map_congr_left
        intro r _
        show foldSet _ (foldSet _ r) = foldSet _ r
        apply foldSet_idem _ r (maskOrAll db.targets r.survey r.program r.targetid)
        intro u hu hm
        have hmask := updatesFor_masks pr sp db.targets db.fibers db.zpix u hu
        unfold matchesU at hm
        rw [Bool.and_eq_true, Bool.and_eq_true] at hm
        obtain ⟨⟨h1, h2⟩, h3⟩ := hm
        rw [hmask, ← eq_of_beq h1, ← eq_of_beq h2, ← eq_of_beq h3]
      rw [hfix]
      rfl

/-- The `iron` entry of `specprod_survey_program`. -/
def ironSP : List (String × List String) :=
  [("cmx", ["other"]),
   ("main", ["backup", "bright", "dark"]),
   ("special", ["backup", "bright", "dark", "other"]),
   ("sv1", ["backup", "bright", "dark", "other"]),
   ("sv2", ["backup", "bright", "dark"]),
   ("sv3", ["backup", "bright", "dark"])]

/-- C7: on the duplicate-target scenario, `zpix_target` succeeds and the
Zpix row's `desi_target` column afterwards equals `0b0001 ||| 0b0010 =
0b0011`, the bitwise OR across all of the target's per-tile Target rows,
whatever bitmasks the Zpix row held before. -/
theorem zpix_target_scenario (m0 : Masks) :
    (zpix_target "iron" (scenarioDB m0)).map
        (fun db => db.zpix.map (fun r => r.masks.desi_target)) =
      some [1 ||| 2] := by
  have hupd : updatesFor "iron" ironSP
      [⟨42, 100, "main", "dark", masksDesi 1⟩,
       ⟨42, 200, "main", "dark", masksDesi 2⟩]
      [⟨42, 100⟩, ⟨42, 200⟩]
      [⟨42, "main", "dark", m0⟩] = [⟨"main", "dark", 42, masksDesi 3⟩] := by
    have hz : ([(⟨42, "main", "dark", m0⟩ : ZpixRow)].map projZ) =
        ([(⟨42, "main", "dark", zeroMasks⟩ : ZpixRow)].map projZ) := rfl
    rw [updatesFor_congr "iron" ironSP _ _ _ _ hz]
    decide
  have hzt : zpix_target "iron" (scenarioDB m0) =
      (applyAll (updatesFor "iron" ironSP
        [⟨42, 100, "main", "dark", masksDesi 1⟩,
         ⟨42, 200, "main", "dark", masksDesi 2⟩]
        [⟨42, 100⟩, ⟨42, 200⟩]
        [⟨42, "main", "dark", m0⟩])
          [⟨42, "main", "dark", m0⟩]).map
        (fun z => { scenarioDB m0 with zpix := z }) := rfl
  have h1 : applyOne ⟨"main", "dark", 42, masksDesi 3⟩
      [(⟨42, "main", "dark", m0⟩ : ZpixRow)] =
      some [⟨42, "main", "dark", masksDesi 3⟩] := by
    have hm : matchesU ⟨"main", "dark", 42, masksDesi 3⟩
        (⟨42, "main", "dark", m0⟩ : ZpixRow) = true := rfl
    simp [applyOne, List.filter_cons, hm, setRow]
  rw [hzt, hupd, applyAll_cons, h1]
  rfl

/-- The scenario database after reconciliation. -/
def scenarioFixedDB : DB :=
  { scenarioDB zeroMasks with zpix := [⟨42, "main", "dark", masksDesi 3⟩] }

/-- Witness for `zpix_target_idempotent`: on the duplicate-target scenario,
the pass succeeds and a second application reproduces its own output. -/
theorem zpix_target_idempotent_witness :
    zpix_target "iron" (scenarioDB zeroMasks) = some scenarioFixedDB ∧
      zpix_target "iron" scenarioFixedDB = some scenarioFixedDB :=
  have h : zpix_target "iron" (scenarioDB zeroMasks) = some scenarioFixedDB := by
    decide
  ⟨h, zpix_target_idempotent "iron" (scenarioDB zeroMasks) scenarioFixedDB h⟩
